import Mathlib

/-!
Shallow embedding of the ChessAI rules kernel
(`src/chess/src/chess_game.rs` and its submodules
`chess_square.rs`, `chess_piece.rs`, `chess_move.rs`, `chess_board.rs`).

Rust structs/enums become Lean structures/inductives; `&mut self` methods
become state-passing functions; the `[ChessSquare; 64]` board array, which
Rust indexes by `usize` through the total bijection `SquareID ↔ 0..63`,
is represented as a function `SquareID → ChessSquare` keyed directly by
the square identity; `Option`-returning Rust code stays `Option`; a Rust
`panic!`/`unwrap` failure is noted at each spot where it is modelled away.

A few helper methods are called by the sources in `src/` but their bodies
are not among the files there (`SquareID::to_str`, `SquareID::calc_offset`,
`ChessSquare::add_seen_by`, `Add for SquareOffset`, `PartialEq` for
`ChessSquare`); those carry a `Modelled from the spec:` doc comment.
-/

namespace Chess

/-- `Player` enum of `chess_game.rs`. -/
inductive Player
  | White
  | Black
deriving DecidableEq, Repr, Fintype

/-- `Player::opponent`. -/
def Player.opponent : Player → Player
  | .White => .Black
  | .Black => .White

/-- `GameResult` enum of `chess_game.rs`. -/
inductive GameResult
  | WhiteWin
  | BlackWin
  | Draw
deriving DecidableEq, Repr

/-- `File` enum of `chess_square.rs` (files a..h). -/
inductive File
  | A | B | C | D | E | F | G | H
deriving DecidableEq, Repr, Fintype

/-- `From<File> for usize`. -/
def File.toNat : File → Nat
  | .A => 0 | .B => 1 | .C => 2 | .D => 3
  | .E => 4 | .F => 5 | .G => 6 | .H => 7

/-- `From<usize> for File` (reduces the value mod 8 first). -/
def File.ofIdx (value : Nat) : File :=
  match value % 8 with
  | 0 => .A | 1 => .B | 2 => .C | 3 => .D
  | 4 => .E | 5 => .F | 6 => .G | _ => .H

/-- `Rank` enum of `chess_square.rs` (ranks 1..8). -/
inductive Rank
  | One | Two | Three | Four | Five | Six | Seven | Eight
deriving DecidableEq, Repr, Fintype

/-- `From<Rank> for usize`. -/
def Rank.toNat : Rank → Nat
  | .One => 0 | .Two => 1 | .Three => 2 | .Four => 3
  | .Five => 4 | .Six => 5 | .Seven => 6 | .Eight => 7

/-- `From<usize> for Rank` (reduces the value mod 8 first). -/
def Rank.ofIdx (value : Nat) : Rank :=
  match value % 8 with
  | 0 => .One | 1 => .Two | 2 => .Three | 3 => .Four
  | 4 => .Five | 5 => .Six | 6 => .Seven | _ => .Eight

/-- `SquareID(pub File, pub Rank)` of `chess_square.rs`. -/
structure SquareID where
  file : File
  rank : Rank
deriving DecidableEq, Repr, Fintype

/-- `SquareOffset(pub isize, pub isize)`: signed (file, rank) offset. -/
structure SquareOffset where
  df : Int
  dr : Int
deriving DecidableEq, Repr

/-- Modelled from the spec: `SquareOffset + SquareOffset` (used by
`ChessBoard::pawn_seen`); componentwise addition of signed offsets. -/
def SquareOffset.addOff (a b : SquareOffset) : SquareOffset :=
  ⟨a.df + b.df, a.dr + b.dr⟩

/-- `From<SquareID> for usize`: `rank*8 + file`. -/
def SquareID.toIndex (id : SquareID) : Nat :=
  id.rank.toNat * 8 + id.file.toNat

/-- `From<usize> for SquareID`: values 64 and bigger reduce mod 64. -/
def SquareID.ofIndex (value : Nat) : SquareID :=
  let v := value % 64
  ⟨File.ofIdx (v % 8), Rank.ofIdx (v / 8)⟩

/-- `SquareID::add_offset`: bounded addition, `none` when a coordinate
leaves 0..7. -/
def SquareID.add_offset (id : SquareID) (offset : SquareOffset) : Option SquareID :=
  let fi : Int := id.file.toNat
  let ri : Int := id.rank.toNat
  let new_f := fi + offset.df
  let new_r := ri + offset.dr
  if 0 ≤ new_f ∧ new_f < 8 ∧ 0 ≤ new_r ∧ new_r < 8 then
    some ⟨File.ofIdx new_f.toNat, Rank.ofIdx new_r.toNat⟩
  else
    none

/-- Modelled from the spec: `SquareID::calc_offset` is §4.1's
`SquareID.sub(SquareID) → SquareOffset`, "used only in `apply` for
detecting a pawn double-push".  The direction (argument minus self) is
fixed by that use: `apply` sets the en-passant target to the square the
pawn skipped, i.e. `self + offset/2`, so the offset must point from
`self` towards `target`. -/
def SquareID.calc_offset (id target : SquareID) : SquareOffset :=
  ⟨(target.file.toNat : Int) - (id.file.toNat : Int),
   (target.rank.toNat : Int) - (id.rank.toNat : Int)⟩

/-- Modelled from the spec: `SquareID::to_str`, the "algebraic name of
`ep_target`" used by FEN field 4 (file letter a..h then rank digit 1..8,
e.g. `e3`). -/
def SquareID.to_str (id : SquareID) : String :=
  (match id.file with
   | .A => "a" | .B => "b" | .C => "c" | .D => "d"
   | .E => "e" | .F => "f" | .G => "g" | .H => "h")
  ++
  (match id.rank with
   | .One => "1" | .Two => "2" | .Three => "3" | .Four => "4"
   | .Five => "5" | .Six => "6" | .Seven => "7" | .Eight => "8")

/-- `SquareColor` enum of `chess_square.rs`. -/
inductive SquareColor
  | Dark
  | Light
deriving DecidableEq, Repr

/-- `From<SquareID> for SquareColor`: `(rank+file) % 2`. -/
def SquareColor.ofId (id : SquareID) : SquareColor :=
  match (id.rank.toNat + id.file.toNat) % 2 with
  | 0 => .Dark
  | _ => .Light

/-- `PieceName` enum of `chess_piece.rs`. -/
inductive PieceName
  | Pawn | Knight | Bishop | Rook | Queen | King
deriving DecidableEq, Repr

/-- `PieceName::knight_offsets`. -/
def PieceName.knight_offsets : List SquareOffset :=
  [⟨-2,-1⟩, ⟨-2,1⟩, ⟨-1,-2⟩, ⟨-1,2⟩, ⟨1,-2⟩, ⟨1,2⟩, ⟨2,-1⟩, ⟨2,1⟩]

/-- `PieceName::king_offsets`. -/
def PieceName.king_offsets : List SquareOffset :=
  [⟨-1,-1⟩, ⟨-1,0⟩, ⟨-1,1⟩, ⟨0,-1⟩, ⟨0,1⟩, ⟨1,-1⟩, ⟨1,0⟩, ⟨1,1⟩]

/-- `ChessPiece` struct of `chess_piece.rs` (`owner`, `name`, `_moved`).
Note: Lean's derived `=` compares all three fields; the Rust `PartialEq`,
which ignores `_moved`, is `ChessPiece.rustEq` below. -/
structure ChessPiece where
  owner : Player
  name : PieceName
  moved : Bool
deriving DecidableEq, Repr

/-- `ChessPiece::not_moved`. -/
def ChessPiece.not_moved (p : ChessPiece) : Bool := !p.moved

/-- `ChessPiece::set_moved`. -/
def ChessPiece.set_moved (p : ChessPiece) (m : Bool) : ChessPiece :=
  { p with moved := m }

/-- The manual `impl PartialEq for ChessPiece`: compares owner and name,
deliberately ignoring `_moved`. -/
def ChessPiece.rustEq (p q : ChessPiece) : Bool :=
  decide (p.owner = q.owner) && decide (p.name = q.name)

/-- `ChessPiece::to_string`: FEN glyph, uppercase for white. -/
def ChessPiece.glyph (p : ChessPiece) : String :=
  match p.owner, p.name with
  | .White, .Pawn => "P" | .White, .Knight => "N" | .White, .Bishop => "B"
  | .White, .Rook => "R" | .White, .Queen => "Q" | .White, .King => "K"
  | .Black, .Pawn => "p" | .Black, .Knight => "n" | .Black, .Bishop => "b"
  | .Black, .Rook => "r" | .Black, .Queen => "q" | .Black, .King => "k"

/-- `ChessSquare` struct of `chess_square.rs`: identity, fixed colour,
optional piece, and the `[u8; 2]` seen-by counters (`.1` = white count,
`.2` = black count; the counters never approach 2^8 — at most one
increment per piece per recompute — so `Nat` stands in for `u8`). -/
@[ext]
structure ChessSquare where
  id : SquareID
  color : SquareColor
  piece : Option ChessPiece
  seen_by : Nat × Nat
deriving DecidableEq, Repr

/-- `ChessSquare::initial i`: the i-th square at the start of a game,
with the hard-coded initial seen-by counters. -/
def ChessSquare.initial (i : Nat) : ChessSquare :=
  let id := SquareID.ofIndex i
  let color := SquareColor.ofId id
  let piece : Option ChessPiece :=
    match id with
    | ⟨file, .One⟩ =>
      match file with
      | .A | .H => some ⟨.White, .Rook, false⟩
      | .B | .G => some ⟨.White, .Knight, false⟩
      | .C | .F => some ⟨.White, .Bishop, false⟩
      | .D => some ⟨.White, .Queen, false⟩
      | .E => some ⟨.White, .King, false⟩
    | ⟨_, .Two⟩ => some ⟨.White, .Pawn, false⟩
    | ⟨_, .Seven⟩ => some ⟨.Black, .Pawn, false⟩
    | ⟨file, .Eight⟩ =>
      match file with
      | .A | .H => some ⟨.Black, .Rook, false⟩
      | .B | .G => some ⟨.Black, .Knight, false⟩
      | .C | .F => some ⟨.Black, .Bishop, false⟩
      | .D => some ⟨.Black, .Queen, false⟩
      | .E => some ⟨.Black, .King, false⟩
    | _ => none
  let seen_by : Nat × Nat :=
    match id with
    | ⟨file, .One⟩ =>
      match file with
      | .A | .H => (0, 0)
      | _ => (1, 0)
    | ⟨file, .Two⟩ =>
      match file with
      | .D | .E => (4, 0)
      | _ => (1, 0)
    | ⟨file, .Three⟩ =>
      match file with
      | .C | .F => (3, 0)
      | _ => (2, 0)
    | ⟨file, .Eight⟩ =>
      match file with
      | .A | .H => (0, 0)
      | _ => (0, 1)
    | ⟨file, .Seven⟩ =>
      match file with
      | .D | .E => (0, 4)
      | _ => (0, 1)
    | ⟨file, .Six⟩ =>
      match file with
      | .C | .F => (0, 3)
      | _ => (0, 2)
    | _ => (0, 0)
  ⟨id, color, piece, seen_by⟩

/-- `ChessSquare::is_seen_by`. -/
def ChessSquare.is_seen_by (s : ChessSquare) (player : Player) : Bool :=
  match player with
  | .White => s.seen_by.1 > 0
  | .Black => s.seen_by.2 > 0

/-- `ChessSquare::not_seen_by`. -/
def ChessSquare.not_seen_by (s : ChessSquare) (player : Player) : Bool :=
  match player with
  | .White => s.seen_by.1 = 0
  | .Black => s.seen_by.2 = 0

/-- `ChessSquare::clear_piece`. -/
def ChessSquare.clear_piece (s : ChessSquare) : ChessSquare :=
  { s with piece := none }

/-- `ChessSquare::set_piece`. -/
def ChessSquare.set_piece (s : ChessSquare) (piece : ChessPiece) : ChessSquare :=
  { s with piece := some piece }

/-- `ChessSquare::clear_seen`. -/
def ChessSquare.clear_seen (s : ChessSquare) : ChessSquare :=
  { s with seen_by := (0, 0) }

/-- Modelled from the spec: `ChessSquare::add_seen_by(player, n)` (§4.3
"`add_seen(player, n)`"), the mutation `ChessBoard`'s attack-map pass
uses: add `n` to the given player's counter. -/
def ChessSquare.add_seen_by (s : ChessSquare) (player : Player) (n : Nat) : ChessSquare :=
  match player with
  | .White => { s with seen_by := (s.seen_by.1 + n, s.seen_by.2) }
  | .Black => { s with seen_by := (s.seen_by.1, s.seen_by.2 + n) }

/-- Modelled from the spec: the `PartialEq` for `ChessSquare` demanded by
`ChessBoard`'s derived `PartialEq` — fieldwise comparison, with pieces
compared by the `_moved`-agnostic `ChessPiece` equality (§4.2 "Equality
disregards `moved`"). -/
def ChessSquare.rustEq (s t : ChessSquare) : Bool :=
  decide (s.id = t.id) && decide (s.color = t.color) && decide (s.seen_by = t.seen_by) &&
    match s.piece, t.piece with
    | none, none => true
    | some p, some q => p.rustEq q
    | _, _ => false

/-- `ChessMove` enum of `chess_move.rs`: the seven move shapes. -/
inductive ChessMove
  | Move (id target : SquareID)
  | Capture (id target : SquareID)
  | EnPassant (id target : SquareID)
  | ShortCastle
  | LongCastle
  | Promotion (target : SquareID) (name : PieceName)
  | CapturePromotion (id target : SquareID) (name : PieceName)
deriving DecidableEq, Repr

/-- `Annotation` enum of `chess_move.rs`. -/
inductive Annotation
  | None
  | Check
  | CheckMate
  | Draw
deriving DecidableEq, Repr

/-- `AnnotatedMove` struct of `chess_move.rs`. -/
structure AnnotatedMove where
  chess_move : ChessMove
  annotation : Annotation
deriving DecidableEq, Repr

/-- `MoveList` of `chess_move.rs` is a plain wrapper around
`Vec<AnnotatedMove>` (`add_move` = push, `has_move` = contains,
`len` = length); we use the list directly. -/
abbrev MoveList := List AnnotatedMove

/-- `ChessBoard` of `chess_board.rs`: the `[ChessSquare; 64]` array.
Rust indexes it by `usize` obtained through the total bijection
`SquareID ↔ 0..63`; we key the 64 slots by `SquareID` directly. -/
@[ext]
structure ChessBoard where
  sq : SquareID → ChessSquare

/-- The square identities in Rust's array order (index 0 = a1 … 63 = h8). -/
def boardIDs : List SquareID := (List.range 64).map SquareID.ofIndex

/-- `ChessBoard::new`: slot `i` holds `ChessSquare::initial(i)`. -/
def ChessBoard.new : ChessBoard :=
  ⟨fun id => ChessSquare.initial id.toIndex⟩

/-- `ChessBoard::square_by_id`. -/
def ChessBoard.square_by_id (b : ChessBoard) (id : SquareID) : ChessSquare :=
  b.sq id

/-- A write through `ChessBoard::square_by_id_mut`: replace the slot of
`id` by `f` of its current contents. -/
def ChessBoard.updSq (b : ChessBoard) (id : SquareID) (f : ChessSquare → ChessSquare) :
    ChessBoard :=
  ⟨fun x => if x = id then f (b.sq id) else b.sq x⟩

/-- `ChessBoard::get_king_sq`: first square (in index order) holding the
player's king.  Rust panics when there is none; that is the `none` case. -/
def ChessBoard.get_king_sq (b : ChessBoard) (player : Player) : Option ChessSquare :=
  boardIDs.findSome? fun id =>
    let s := b.sq id
    match s.piece with
    | some p => if p.name = .King ∧ p.owner = player then some s else none
    | none => none

/-- The piece relocation part of `ChessBoard::make_move` (everything in
the big `match` before the final `calc_seen` call).  The Rust `unwrap`s
of the moving piece panic when the expected piece is absent; those
branches (unreachable for engine-produced moves) leave the board as is. -/
def ChessBoard.move_pieces (b : ChessBoard) (chess_move : ChessMove) (player : Player) :
    ChessBoard :=
  match chess_move with
  | .Move id target_id | .Capture id target_id =>
    match (b.square_by_id id).piece with
    | none => b
    | some piece =>
      let b := b.updSq id ChessSquare.clear_piece
      b.updSq target_id (fun s => s.set_piece (piece.set_moved true))
  | .EnPassant id target_id =>
    match (b.square_by_id id).piece with
    | none => b
    | some piece =>
      let b := b.updSq id ChessSquare.clear_piece
      let b := b.updSq target_id (fun s => s.set_piece piece)
      let ep_id := SquareID.mk target_id.file id.rank
      b.updSq ep_id ChessSquare.clear_piece
  | .ShortCastle =>
    let rank := match player with
      | .White => Rank.One
      | .Black => Rank.Eight
    match (b.square_by_id ⟨.E, rank⟩).piece with
    | none => b
    | some king =>
      let b := b.updSq ⟨.E, rank⟩ ChessSquare.clear_piece
      let b := b.updSq ⟨.G, rank⟩ (fun s => s.set_piece (king.set_moved true))
      match (b.square_by_id ⟨.H, rank⟩).piece with
      | none => b
      | some rook =>
        let b := b.updSq ⟨.H, rank⟩ ChessSquare.clear_piece
        b.updSq ⟨.F, rank⟩ (fun s => s.set_piece (rook.set_moved true))
  | .LongCastle =>
    let rank := match player with
      | .White => Rank.One
      | .Black => Rank.Eight
    match (b.square_by_id ⟨.E, rank⟩).piece with
    | none => b
    | some king =>
      let b := b.updSq ⟨.E, rank⟩ ChessSquare.clear_piece
      let b := b.updSq ⟨.C, rank⟩ (fun s => s.set_piece (king.set_moved true))
      match (b.square_by_id ⟨.A, rank⟩).piece with
      | none => b
      | some rook =>
        let b := b.updSq ⟨.A, rank⟩ ChessSquare.clear_piece
        b.updSq ⟨.D, rank⟩ (fun s => s.set_piece (rook.set_moved true))
  | .Promotion target_id piece_name =>
    let id := match player with
      | .White => SquareID.mk target_id.file .Seven
      | .Black => SquareID.mk target_id.file .Two
    let b := b.updSq id ChessSquare.clear_piece
    b.updSq target_id (fun s => s.set_piece ⟨player, piece_name, true⟩)
  | .CapturePromotion id target_id piece_name =>
    let b := b.updSq id ChessSquare.clear_piece
    b.updSq target_id (fun s => s.set_piece ⟨player, piece_name, true⟩)

/-- `ChessBoard::clear_seen`. -/
def ChessBoard.board_clear_seen (b : ChessBoard) : ChessBoard :=
  ⟨fun id => (b.sq id).clear_seen⟩

/-- Shared body of the `for offset in offsets` loops of `pawn_seen`,
`knight_seen` and `king_seen`: bump the player's counter on the offset
square when it is on the board. -/
def ChessBoard.seen_add (b : ChessBoard) (id : SquareID) (offset : SquareOffset)
    (player : Player) : ChessBoard :=
  match id.add_offset offset with
  | some target => b.updSq target (fun s => s.add_seen_by player 1)
  | none => b

/-- `ChessBoard::pawn_seen`. -/
def ChessBoard.pawn_seen (b : ChessBoard) (id : SquareID) (player : Player) : ChessBoard :=
  let forward_offset : SquareOffset := match player with
    | .White => ⟨0, 1⟩
    | .Black => ⟨0, -1⟩
  let offsets := [SquareOffset.addOff ⟨-1, 0⟩ forward_offset,
                  SquareOffset.addOff ⟨1, 0⟩ forward_offset]
  offsets.foldl (fun acc offset => acc.seen_add id offset player) b

/-- `ChessBoard::knight_seen`. -/
def ChessBoard.knight_seen (b : ChessBoard) (id : SquareID) (player : Player) : ChessBoard :=
  PieceName.knight_offsets.foldl (fun acc offset => acc.seen_add id offset player) b

/-- The loop body of `ChessBoard::los_seen` over the remaining ray steps:
add 1 to each visited square, stopping at the first occupied square or at
the board edge. -/
def ChessBoard.los_seen_go (b : ChessBoard) (id : SquareID) (player : Player)
    (f : Int → SquareOffset) : List Int → ChessBoard
  | [] => b
  | i :: rest =>
    match id.add_offset (f i) with
    | some target =>
      let b := b.updSq target (fun s => s.add_seen_by player 1)
      if (b.square_by_id target).piece.isSome then b
      else b.los_seen_go id player f rest
    | none => b

/-- `ChessBoard::los_seen`: ray walk for `i in 1..8`. -/
def ChessBoard.los_seen (b : ChessBoard) (id : SquareID) (player : Player)
    (f : Int → SquareOffset) : ChessBoard :=
  b.los_seen_go id player f [1, 2, 3, 4, 5, 6, 7]

/-- `ChessBoard::bishop_seen`. -/
def ChessBoard.bishop_seen (b : ChessBoard) (id : SquareID) (player : Player) : ChessBoard :=
  let b := b.los_seen id player (fun i => ⟨-i, -i⟩)
  let b := b.los_seen id player (fun i => ⟨-i, i⟩)
  let b := b.los_seen id player (fun i => ⟨i, -i⟩)
  b.los_seen id player (fun i => ⟨i, i⟩)

/-- `ChessBoard::rook_seen`. -/
def ChessBoard.rook_seen (b : ChessBoard) (id : SquareID) (player : Player) : ChessBoard :=
  let b := b.los_seen id player (fun i => ⟨-i, 0⟩)
  let b := b.los_seen id player (fun i => ⟨i, 0⟩)
  let b := b.los_seen id player (fun i => ⟨0, -i⟩)
  b.los_seen id player (fun i => ⟨0, i⟩)

/-- `ChessBoard::queen_seen`: bishop rays then rook rays. -/
def ChessBoard.queen_seen (b : ChessBoard) (id : SquareID) (player : Player) : ChessBoard :=
  (b.bishop_seen id player).rook_seen id player

/-- `ChessBoard::king_seen`. -/
def ChessBoard.king_seen (b : ChessBoard) (id : SquareID) (player : Player) : ChessBoard :=
  PieceName.king_offsets.foldl (fun acc offset => acc.seen_add id offset player) b

/-- Dispatch of one `calc_seen` iteration on the (optional) piece of the
visited slot, whose stored identity is `pid`. -/
def ChessBoard.piece_step (acc : ChessBoard) (pid : SquareID) :
    Option ChessPiece → ChessBoard
  | none => acc
  | some piece =>
    match piece.name with
    | .Pawn => acc.pawn_seen pid piece.owner
    | .Knight => acc.knight_seen pid piece.owner
    | .Bishop => acc.bishop_seen pid piece.owner
    | .Rook => acc.rook_seen pid piece.owner
    | .Queen => acc.queen_seen pid piece.owner
    | .King => acc.king_seen pid piece.owner

/-- One iteration of the `calc_seen` loop: dispatch on the piece in the
slot of `id` of the board being rebuilt (Rust reads `self.board[index]`
mid-mutation; only seen-counters have changed by then, so the piece and
its stored `get_id()` are those of the original board). -/
def ChessBoard.seen_step (acc : ChessBoard) (id : SquareID) : ChessBoard :=
  acc.piece_step (acc.sq id).id (acc.sq id).piece

/-- `ChessBoard::calc_seen`: zero every counter, then add each piece's
attacks, scanning the slots in index order. -/
def ChessBoard.calc_seen (b : ChessBoard) : ChessBoard :=
  boardIDs.foldl ChessBoard.seen_step b.board_clear_seen

/-- `ChessBoard::make_move`: relocate pieces, then recompute the attack
map from scratch. -/
def ChessBoard.make_move (b : ChessBoard) (chess_move : ChessMove) (player : Player) :
    ChessBoard :=
  (b.move_pieces chess_move player).calc_seen

/-- The derived `PartialEq for ChessBoard`: the 64 squares compared
pairwise with the square equality (which ignores pieces' `_moved`). -/
def ChessBoard.rustEq (b b' : ChessBoard) : Bool :=
  boardIDs.all fun id => (b.sq id).rustEq (b'.sq id)

/-- `ChessGameState` struct of `chess_game.rs`. -/
structure ChessGameState where
  board : ChessBoard
  active_player : Player
  result : Option GameResult
  ep_square : Option SquareID
  draw_clock : Nat
  turn_num : Nat

/-- `ChessGameState::new`. -/
def ChessGameState.new : ChessGameState :=
  { board := ChessBoard.new
    active_player := .White
    result := none
    ep_square := none
    draw_clock := 0
    turn_num := 1 }

/-- `p.is_some_and(|p| p.get_name() == Pawn)` on the square of `id`. -/
def ChessGameState.pawn_at (s : ChessGameState) (id : SquareID) : Bool :=
  match (s.board.square_by_id id).piece with
  | some p => p.name = .Pawn
  | none => false

/-- `ChessGameState::make_move`.  The Rust method mutates in place, in
this order: reset `ep_square` and update `draw_clock`/`ep_square` from
the move shape; set `result` from the annotation; bump `turn_num` after a
black move; apply the fifty-move check (`result` still `None` and clock
≥ 50); relocate the pieces and recompute the attack map; flip the active
player.  The `unwrap` of `add_offset` in the double-push branch cannot
fail (the skipped rank lies between two on-board ranks); its panic branch
falls back to the origin square. -/
def ChessGameState.make_move (s : ChessGameState) (annotated_move : AnnotatedMove) :
    ChessGameState :=
  let epClock : Option SquareID × Nat :=
    match annotated_move.chess_move with
    | .Move id target =>
      if s.pawn_at id then
        let offset := id.calc_offset target
        if offset.df = 0 ∧ offset.dr.natAbs = 2 then
          let ep_offset : SquareOffset := ⟨0, offset.dr / 2⟩
          let ep_sq := (id.add_offset ep_offset).getD id
          (some ep_sq, 0)
        else (none, 0)
      else (none, s.draw_clock + 1)
    | .Capture _ _ => (none, 0)
    | .EnPassant _ _ => (none, 0)
    | .ShortCastle => (none, s.draw_clock + 1)
    | .LongCastle => (none, s.draw_clock + 1)
    | .Promotion _ _ => (none, 0)
    | .CapturePromotion _ _ _ => (none, 0)
  let result₁ : Option GameResult :=
    match annotated_move.annotation with
    | .CheckMate =>
      match s.active_player with
      | .White => some .WhiteWin
      | .Black => some .BlackWin
    | .Draw => some .Draw
    | _ => s.result
  let turn_num :=
    if s.active_player = .Black then s.turn_num + 1 else s.turn_num
  let result₂ :=
    if result₁ = none ∧ 50 ≤ epClock.2 then some GameResult.Draw else result₁
  { board := s.board.make_move annotated_move.chess_move s.active_player
    active_player := s.active_player.opponent
    result := result₂
    ep_square := epClock.1
    draw_clock := epClock.2
    turn_num := turn_num }

/-- `ChessGameState::get_rank_fen`: one FEN rank, runs of empty squares
as a digit. -/
def ChessGameState.get_rank_fen (s : ChessGameState) (rank : Rank) : String :=
  let step : String × Nat → Nat → String × Nat := fun acc f =>
    match (s.board.square_by_id ⟨File.ofIdx f, rank⟩).piece with
    | some piece =>
      ((if acc.2 > 0 then acc.1 ++ Nat.repr acc.2 else acc.1) ++ piece.glyph, 0)
    | none => (acc.1, acc.2 + 1)
  let fin := (List.range 8).foldl step ("", 0)
  if fin.2 > 0 then fin.1 ++ Nat.repr fin.2 else fin.1

/-- `ChessGameState::castling_valid`. -/
def ChessGameState.castling_valid (s : ChessGameState) (id : SquareID)
    (name : PieceName) : Bool :=
  match (s.board.square_by_id id).piece with
  | some p => p.name = name && p.not_moved
  | none => false

/-- `ChessGameState::get_castling_fen`: note it yields the empty string
(not `-`) when no right remains. -/
def ChessGameState.get_castling_fen (s : ChessGameState) : String :=
  let w_king := s.castling_valid ⟨.E, .One⟩ .King
  let wk_rook := s.castling_valid ⟨.H, .One⟩ .Rook
  let fen := if w_king && wk_rook then "K" else ""
  let wq_rook := s.castling_valid ⟨.A, .One⟩ .Rook
  let fen := fen ++ if w_king && wq_rook then "Q" else ""
  let b_king := s.castling_valid ⟨.E, .Eight⟩ .King
  let bk_rook := s.castling_valid ⟨.H, .Eight⟩ .Rook
  let fen := fen ++ if b_king && bk_rook then "k" else ""
  let bq_rook := s.castling_valid ⟨.A, .Eight⟩ .Rook
  fen ++ if b_king && bq_rook then "q" else ""

/-- `ChessGameState::get_fen`: ranks 8 down to 1 joined by `/`, then the
active player, castling, en passant, clock and turn fields. -/
def ChessGameState.get_fen (s : ChessGameState) : String :=
  let ranks := (List.range 8).foldl (fun fen r =>
    let r' := 7 - r
    fen ++ s.get_rank_fen (Rank.ofIdx r') ++ if r' ≠ 0 then "/" else "") ""
  let fen := ranks ++ match s.active_player with
    | .White => " w "
    | .Black => " b "
  let fen := fen ++ s.get_castling_fen ++ " "
  let fen := fen ++ match s.ep_square with
    | none => "-"
    | some ep_square => ep_square.to_str
  fen ++ " " ++ Nat.repr s.draw_clock ++ " " ++ Nat.repr s.turn_num

/-- `ChessGameState::add_pawn_moves`.  Rust `unwrap`s the single-push
square (a pawn on its own back rank would panic — impossible in play);
that branch yields no moves.  The double-push `unwrap` cannot fail since
the single push was not the promotion rank. -/
def ChessGameState.add_pawn_moves (s : ChessGameState) (sq : ChessSquare)
    (piece : ChessPiece) : List ChessMove :=
  let id := sq.id
  let promotion_rank : Rank := match s.active_player with
    | .White => .Eight
    | .Black => .One
  let promote_to : List PieceName := [.Knight, .Bishop, .Rook, .Queen]
  let push_offset : SquareOffset := match s.active_player with
    | .White => ⟨0, 1⟩
    | .Black => ⟨0, -1⟩
  match id.add_offset push_offset with
  | none => []
  | some push_sq =>
    let pushes :=
      if (s.board.square_by_id push_sq).piece.isNone then
        if push_sq.rank = promotion_rank then
          promote_to.map fun name => ChessMove.Promotion push_sq name
        else
          [ChessMove.Move id push_sq] ++
            if piece.not_moved then
              match push_sq.add_offset push_offset with
              | some double_sq =>
                if (s.board.square_by_id double_sq).piece.isNone then
                  [ChessMove.Move id double_sq]
                else []
              | none => []
            else []
      else []
    let capture_offsets : List SquareOffset := [⟨-1, 0⟩, ⟨1, 0⟩]
    pushes ++ capture_offsets.foldl (fun acc offset =>
      match push_sq.add_offset offset with
      | some target_id =>
        let target_sq := s.board.square_by_id target_id
        acc ++
          match target_sq.piece with
          | some p =>
            if p.owner = s.active_player.opponent then
              if target_id.rank = promotion_rank then
                promote_to.map fun name => ChessMove.CapturePromotion id target_id name
              else [ChessMove.Capture id target_id]
            else []
          | none =>
            if s.ep_square = some target_id then [ChessMove.EnPassant id target_id]
            else []
      | none => acc) []

/-- `ChessGameState::add_knight_moves`. -/
def ChessGameState.add_knight_moves (s : ChessGameState) (sq : ChessSquare) :
    List ChessMove :=
  let id := sq.id
  PieceName.knight_offsets.foldl (fun acc offset =>
    match id.add_offset offset with
    | some target =>
      let target_sq := s.board.square_by_id target
      acc ++
        match target_sq.piece with
        | none => [ChessMove.Move id target]
        | some p =>
          if p.owner ≠ s.active_player then [ChessMove.Capture id target] else []
    | none => acc) []

/-- The loop of `ChessGameState::add_los_moves` over the remaining ray
steps: empty squares yield quiet moves, the first occupied square stops
the ray (a capture if it holds an enemy piece). -/
def ChessGameState.add_los_moves_go (s : ChessGameState) (id : SquareID)
    (f : Int → SquareOffset) : List Int → List ChessMove
  | [] => []
  | i :: rest =>
    match id.add_offset (f i) with
    | some target =>
      match (s.board.square_by_id target).piece with
      | none => ChessMove.Move id target :: s.add_los_moves_go id f rest
      | some p =>
        if p.owner ≠ s.active_player then [ChessMove.Capture id target] else []
    | none => []

/-- `ChessGameState::add_los_moves` for `i in 1..8`. -/
def ChessGameState.add_los_moves (s : ChessGameState) (sq : ChessSquare)
    (f : Int → SquareOffset) : List ChessMove :=
  s.add_los_moves_go sq.id f [1, 2, 3, 4, 5, 6, 7]

/-- `ChessGameState::add_bishop_moves`. -/
def ChessGameState.add_bishop_moves (s : ChessGameState) (sq : ChessSquare) :
    List ChessMove :=
  s.add_los_moves sq (fun i => ⟨-i, -i⟩) ++ s.add_los_moves sq (fun i => ⟨-i, i⟩) ++
  s.add_los_moves sq (fun i => ⟨i, -i⟩) ++ s.add_los_moves sq (fun i => ⟨i, i⟩)

/-- `ChessGameState::add_rook_moves`. -/
def ChessGameState.add_rook_moves (s : ChessGameState) (sq : ChessSquare) :
    List ChessMove :=
  s.add_los_moves sq (fun i => ⟨-i, 0⟩) ++ s.add_los_moves sq (fun i => ⟨i, 0⟩) ++
  s.add_los_moves sq (fun i => ⟨0, -i⟩) ++ s.add_los_moves sq (fun i => ⟨0, i⟩)

/-- `ChessGameState::add_queen_moves`: bishop moves then rook moves. -/
def ChessGameState.add_queen_moves (s : ChessGameState) (sq : ChessSquare) :
    List ChessMove :=
  s.add_bishop_moves sq ++ s.add_rook_moves sq

/-- `ChessGameState::add_king_moves`: adjacent steps pre-filtered by the
opponent's attack counters, then the two castling emissions. -/
def ChessGameState.add_king_moves (s : ChessGameState) (sq : ChessSquare)
    (piece : ChessPiece) : List ChessMove :=
  let id := sq.id
  let opponent := s.active_player.opponent
  let standard := PieceName.king_offsets.foldl (fun acc offset =>
    match id.add_offset offset with
    | some target =>
      let target_sq := s.board.square_by_id target
      acc ++
        if target_sq.not_seen_by opponent then
          match target_sq.piece with
          | none => [ChessMove.Move id target]
          | some p =>
            if p.owner ≠ s.active_player then [ChessMove.Capture id target] else []
        else []
    | none => acc) []
  let castles :=
    if piece.not_moved && sq.not_seen_by opponent then
      let rank := id.rank
      let shortC :=
        match (s.board.square_by_id ⟨.H, rank⟩).piece with
        | some p =>
          if p.name = .Rook && p.not_moved then
            let b_sq := s.board.square_by_id ⟨.F, rank⟩
            if b_sq.piece.isNone && b_sq.not_seen_by opponent then
              let n_sq := s.board.square_by_id ⟨.G, rank⟩
              if n_sq.piece.isNone && n_sq.not_seen_by opponent then
                [ChessMove.ShortCastle]
              else []
            else []
          else []
        | none => []
      let longC :=
        match (s.board.square_by_id ⟨.A, rank⟩).piece with
        | some p =>
          if p.name = .Rook && p.not_moved then
            let q_sq := s.board.square_by_id ⟨.D, rank⟩
            if q_sq.piece.isNone && q_sq.not_seen_by opponent then
              let b_sq := s.board.square_by_id ⟨.C, rank⟩
              if b_sq.piece.isNone && b_sq.not_seen_by opponent then
                let n_sq := s.board.square_by_id ⟨.B, rank⟩
                if n_sq.piece.isNone then [ChessMove.LongCastle] else []
              else []
            else []
          else []
        | none => []
      shortC ++ longC
    else []
  standard ++ castles

/-- `ChessGameState::get_all_moves`: scan the squares in index order and
collect the pseudo-legal moves of the active player's pieces. -/
def ChessGameState.get_all_moves (s : ChessGameState) : List ChessMove :=
  boardIDs.foldl (fun moves id =>
    let square := s.board.sq id
    match square.piece with
    | some piece =>
      if piece.owner = s.active_player then
        moves ++
          match piece.name with
          | .Pawn => s.add_pawn_moves square piece
          | .Knight => s.add_knight_moves square
          | .Bishop => s.add_bishop_moves square
          | .Rook => s.add_rook_moves square
          | .Queen => s.add_queen_moves square
          | .King => s.add_king_moves square piece
      else moves
    | none => moves) []

/-- The body of the loops of `get_legal_moves` / `has_legal_moves` that
tests one pseudo-legal move: apply it to a value copy (annotated `None`,
exactly as the Rust copies do) and check that the mover's king is not
seen by the opponent afterwards.  Rust panics when the king is missing
on the copy; that case reports the move as not surviving. -/
def ChessGameState.move_survives (s : ChessGameState) (m : ChessMove) : Bool :=
  let my_copy := s.make_move ⟨m, .None⟩
  match my_copy.board.get_king_sq s.active_player with
  | some king_sq => king_sq.not_seen_by s.active_player.opponent
  | none => false

/-- `ChessGameState::has_legal_moves`: the loop returns at the first
pseudo-legal move that passes the self-check test. -/
def ChessGameState.has_legal_moves (s : ChessGameState) : Bool :=
  s.get_all_moves.any s.move_survives

/-- The annotation `get_legal_moves` attaches to a surviving move: on the
trial copy, `is_check` = the opponent's king is seen by the mover, and
the opponent keeps a surviving reply (`has_legal_moves`); the pair maps
to check / checkmate / none / draw.  The missing-opponent-king Rust
panic surfaces as `is_check = false`. -/
def ChessGameState.move_annotation (s : ChessGameState) (m : ChessMove) : Annotation :=
  let my_copy := s.make_move ⟨m, .None⟩
  let is_check :=
    match my_copy.board.get_king_sq s.active_player.opponent with
    | some osq => osq.is_seen_by s.active_player
    | none => false
  match is_check, my_copy.has_legal_moves with
  | true, true => .Check
  | true, false => .CheckMate
  | false, true => .None
  | false, false => .Draw

/-- `ChessGameState::get_legal_moves`: keep the pseudo-legal moves whose
trial copy leaves the mover's king unattacked (`move_survives`, the
loop's first half), annotated by `move_annotation` (its second half). -/
def ChessGameState.get_legal_moves (s : ChessGameState) : MoveList :=
  s.get_all_moves.filterMap fun m =>
    if s.move_survives m then some ⟨m, s.move_annotation m⟩ else none
/-- The part of a square the attack-map recompute can read: identity,
colour, and the piece stripped of its `_moved` flag. -/
def ChessSquare.shape (s : ChessSquare) : SquareID × SquareColor × Option (Player × PieceName) :=
  (s.id, s.color, s.piece.map fun p => (p.owner, p.name))

/-- Boards that agree square-by-square on shape (placement up to
`_moved` flags). -/
def ShapeRel (b b' : ChessBoard) : Prop :=
  ∀ id, (b.sq id).shape = (b'.sq id).shape

/-- Boards that agree square-by-square on shape and on counters. -/
def CalcRel (b b' : ChessBoard) : Prop :=
  ∀ id, (b.sq id).shape = (b'.sq id).shape ∧ (b.sq id).seen_by = (b'.sq id).seen_by

/-- Boards with identical identities, colours and pieces (counters
unconstrained): what a seen-counter pass preserves exactly. -/
def PlaceRel (b b' : ChessBoard) : Prop :=
  ∀ id, (b.sq id).id = (b'.sq id).id ∧ (b.sq id).color = (b'.sq id).color ∧
    (b.sq id).piece = (b'.sq id).piece

/-- The boards the engine can hold: the freshly constructed board, and
any board produced by `ChessBoard::make_move`. -/
inductive ReachableBoard : ChessBoard → Prop
  | initial : ReachableBoard ChessBoard.new
  | step (b : ChessBoard) (m : ChessMove) (p : Player) : ReachableBoard (b.make_move m p)


/-- The clock-reset condition of claim C5, read off the spec: a quiet
`Move` of a pawn, or any `Capture`, `EnPassant`, `Promotion` or
`CapturePromotion`; castling and non-pawn quiet moves do not reset. -/
def resets_clock (s : ChessGameState) (m : ChessMove) : Bool :=
  match m with
  | .Move id _ => s.pawn_at id
  | .Capture _ _ | .EnPassant _ _ | .Promotion _ _ | .CapturePromotion _ _ _ => true
  | .ShortCastle | .LongCastle => false

/-- The square named by claim C6 for a double push: (origin.file,
origin.rank + sign of the rank difference). -/
def ep_skip_square (id target : SquareID) : SquareID :=
  ⟨id.file,
   Rank.ofIdx (((id.rank.toNat : Int)
     + ((target.rank.toNat : Int) - (id.rank.toNat : Int)).sign).toNat)⟩

/-- The en-passant target claim C6 predicts after a move: set exactly
for a quiet `Move` of a pawn two ranks along its own file, and then the
skipped square. -/
def ep_target_claim (s : ChessGameState) (m : ChessMove) : Option SquareID :=
  match m with
  | .Move id target =>
    if s.pawn_at id ∧ target.file = id.file
        ∧ ((target.rank.toNat : Int) - (id.rank.toNat : Int)).natAbs = 2 then
      some (ep_skip_square id target)
    else none
  | _ => none

/-- Split a character list at spaces (no separator merging): builder for
the space-separated FEN fields of claim C2. -/
def splitSp : List Char → List Char → List String
  | [], acc => [String.mk acc.reverse]
  | ch :: rest, acc =>
    if ch = ' ' then String.mk acc.reverse :: splitSp rest []
    else splitSp rest (ch :: acc)

/-- The space-separated fields of a string. -/
def spaceFields (s : String) : List String := splitSp s.data []

/-- An empty square with consistent identity and colour. -/
def emptySq (id : SquareID) : ChessSquare := ⟨id, SquareColor.ofId id, none, (0, 0)⟩

/-- A two-king board: white king a1, black king h8, both already moved,
all counters zero. -/
def tinyBoard : ChessBoard :=
  ⟨fun id =>
    if id = ⟨.A, .One⟩ then ⟨id, SquareColor.ofId id, some ⟨.White, .King, true⟩, (0, 0)⟩
    else if id = ⟨.H, .Eight⟩ then
      ⟨id, SquareColor.ofId id, some ⟨.Black, .King, true⟩, (0, 0)⟩
    else emptySq id⟩

/-- A game state over `tinyBoard` whose `result` is already a draw. -/
def tinyDrawGame : ChessGameState :=
  { board := tinyBoard
    active_player := .White
    result := some .Draw
    ep_square := none
    draw_clock := 0
    turn_num := 1 }

/-- The initial position with both kings marked as having moved: no
castling right remains. -/
def noCastleState : ChessGameState :=
  { ChessGameState.new with
      board := (ChessBoard.new.updSq ⟨.E, .One⟩
          (fun s => s.set_piece ⟨.White, .King, true⟩)).updSq ⟨.E, .Eight⟩
          (fun s => s.set_piece ⟨.Black, .King, true⟩) }

/-- The initial position with a result already recorded and a large
halfmove clock (input for the C4 counterexample). -/
def wonGame : ChessGameState :=
  { ChessGameState.new with result := some .WhiteWin, draw_clock := 60 }

/-- The initial board with the a1 counters corrupted to (5, 5): its
counters no longer match a from-scratch recompute. -/
def badSeenBoard : ChessBoard :=
  ⟨fun id =>
    if id = ⟨.A, .One⟩ then
      ⟨⟨.A, .One⟩, SquareColor.ofId ⟨.A, .One⟩, some ⟨.White, .Rook, false⟩, (5, 5)⟩
    else ChessBoard.new.sq id⟩

lemma updSq_sq (b : ChessBoard) (t : SquareID) (f : ChessSquare → ChessSquare)
    (x : SquareID) :
    (b.updSq t f).sq x = if x = t then f (b.sq t) else b.sq x := rfl

lemma add_seen_by_shape (s : ChessSquare) (p : Player) (n : Nat) :
    (s.add_seen_by p n).shape = s.shape := by cases p <;> rfl

lemma add_seen_by_piece (s : ChessSquare) (p : Player) (n : Nat) :
    (s.add_seen_by p n).piece = s.piece := by cases p <;> rfl

lemma add_seen_by_id (s : ChessSquare) (p : Player) (n : Nat) :
    (s.add_seen_by p n).id = s.id := by cases p <;> rfl

lemma add_seen_by_color (s : ChessSquare) (p : Player) (n : Nat) :
    (s.add_seen_by p n).color = s.color := by cases p <;> rfl

lemma add_seen_by_seen (s t : ChessSquare) (p : Player) (n : Nat)
    (h : s.seen_by = t.seen_by) :
    (s.add_seen_by p n).seen_by = (t.add_seen_by p n).seen_by := by
  cases p <;> simp [ChessSquare.add_seen_by, h]

lemma placeRel_refl (b : ChessBoard) : PlaceRel b b := fun _ => ⟨rfl, rfl, rfl⟩

lemma placeRel_trans {a b c : ChessBoard} (h₁ : PlaceRel a b) (h₂ : PlaceRel b c) :
    PlaceRel a c := by
  intro id
  obtain ⟨x1, x2, x3⟩ := h₁ id
  obtain ⟨y1, y2, y3⟩ := h₂ id
  exact ⟨x1.trans y1, x2.trans y2, x3.trans y3⟩

lemma placeRel_shapeRel {b b' : ChessBoard} (h : PlaceRel b b') : ShapeRel b b' := by
  intro id
  obtain ⟨h1, h2, h3⟩ := h id
  simp [ChessSquare.shape, h1, h2, h3]

lemma calcRel_updAdd {x y : ChessBoard} (h : CalcRel x y) (t : SquareID) (p : Player) :
    CalcRel (x.updSq t (fun s => s.add_seen_by p 1)) (y.updSq t (fun s => s.add_seen_by p 1)) := by
  intro id
  rw [updSq_sq, updSq_sq]
  split
  · exact ⟨by rw [add_seen_by_shape, add_seen_by_shape]; exact (h t).1,
           add_seen_by_seen _ _ _ _ (h t).2⟩
  · exact h id

lemma calcRel_seen_add {x y : ChessBoard} (h : CalcRel x y) (id : SquareID)
    (o : SquareOffset) (p : Player) :
    CalcRel (x.seen_add id o p) (y.seen_add id o p) := by
  unfold ChessBoard.seen_add
  cases id.add_offset o with
  | none => exact h
  | some target => exact calcRel_updAdd h target p

lemma calcRel_seenFold {x y : ChessBoard} (h : CalcRel x y) (id : SquareID)
    (p : Player) (offs : List SquareOffset) :
    CalcRel (offs.foldl (fun acc o => acc.seen_add id o p) x)
      (offs.foldl (fun acc o => acc.seen_add id o p) y) := by
  induction offs generalizing x y with
  | nil => exact h
  | cons o rest ih => exact ih (calcRel_seen_add h id o p)

lemma shape_piece_isSome {s t : ChessSquare} (h : s.shape = t.shape) :
    s.piece.isSome = t.piece.isSome := by
  have h3 := congrArg (fun q => q.2.2.isSome) h
  simpa [ChessSquare.shape, Option.isSome_map'] using h3

lemma calcRel_los_go {x y : ChessBoard} (h : CalcRel x y) (id : SquareID)
    (p : Player) (f : Int → SquareOffset) (fuel : List Int) :
    CalcRel (x.los_seen_go id p f fuel) (y.los_seen_go id p f fuel) := by
  induction fuel generalizing x y with
  | nil => exact h
  | cons i rest ih =>
    unfold ChessBoard.los_seen_go
    cases id.add_offset (f i) with
    | none => exact h
    | some target =>
      dsimp only
      have h' := calcRel_updAdd h target p
      have hocc : ((x.updSq target (fun s => s.add_seen_by p 1)).square_by_id target).piece.isSome
          = ((y.updSq target (fun s => s.add_seen_by p 1)).square_by_id target).piece.isSome :=
        shape_piece_isSome (h' target).1
      by_cases hxo : ((x.updSq target (fun s => s.add_seen_by p 1)).square_by_id target).piece.isSome = true
      · have hyo : ((y.updSq target (fun s => s.add_seen_by p 1)).square_by_id target).piece.isSome = true :=
          hocc ▸ hxo
        rw [if_pos hxo, if_pos hyo]
        exact h'
      · have hyo : ¬ ((y.updSq target (fun s => s.add_seen_by p 1)).square_by_id target).piece.isSome = true := by
          rw [← hocc]
          exact hxo
        rw [if_neg hxo, if_neg hyo]
        exact ih h'

lemma calcRel_los {x y : ChessBoard} (h : CalcRel x y) (id : SquareID)
    (p : Player) (f : Int → SquareOffset) :
    CalcRel (x.los_seen id p f) (y.los_seen id p f) :=
  calcRel_los_go h id p f _

lemma calcRel_pawn {x y : ChessBoard} (h : CalcRel x y) (id : SquareID) (p : Player) :
    CalcRel (x.pawn_seen id p) (y.pawn_seen id p) :=
  calcRel_seenFold h id p _

lemma calcRel_knight {x y : ChessBoard} (h : CalcRel x y) (id : SquareID) (p : Player) :
    CalcRel (x.knight_seen id p) (y.knight_seen id p) :=
  calcRel_seenFold h id p _

lemma calcRel_king {x y : ChessBoard} (h : CalcRel x y) (id : SquareID) (p : Player) :
    CalcRel (x.king_seen id p) (y.king_seen id p) :=
  calcRel_seenFold h id p _

lemma calcRel_bishop {x y : ChessBoard} (h : CalcRel x y) (id : SquareID) (p : Player) :
    CalcRel (x.bishop_seen id p) (y.bishop_seen id p) :=
  calcRel_los (calcRel_los (calcRel_los (calcRel_los h id p _) id p _) id p _) id p _

lemma calcRel_rook {x y : ChessBoard} (h : CalcRel x y) (id : SquareID) (p : Player) :
    CalcRel (x.rook_seen id p) (y.rook_seen id p) :=
  calcRel_los (calcRel_los (calcRel_los (calcRel_los h id p _) id p _) id p _) id p _

lemma calcRel_queen {x y : ChessBoard} (h : CalcRel x y) (id : SquareID) (p : Player) :
    CalcRel (x.queen_seen id p) (y.queen_seen id p) :=
  calcRel_rook (calcRel_bishop h id p) id p

lemma calcRel_step {x y : ChessBoard} (h : CalcRel x y) (id : SquareID) :
    CalcRel (x.seen_step id) (y.seen_step id) := by
  unfold ChessBoard.seen_step
  have hsh := (h id).1
  have hid : (x.sq id).id = (y.sq id).id := congrArg (fun q => q.1) hsh
  have hpc : (x.sq id).piece.map (fun p => (p.owner, p.name))
      = (y.sq id).piece.map (fun p => (p.owner, p.name)) := congrArg (fun q => q.2.2) hsh
  rw [hid]
  cases hx : (x.sq id).piece with
  | none =>
    cases hy : (y.sq id).piece with
    | none => exact h
    | some q => rw [hx, hy] at hpc; simp at hpc
  | some p =>
    cases hy : (y.sq id).piece with
    | none => rw [hx, hy] at hpc; simp at hpc
    | some q =>
      rw [hx, hy] at hpc
      simp at hpc
      obtain ⟨ho, hn⟩ := hpc
      simp only [ChessBoard.piece_step]
      rw [← hn, ← ho]
      cases p.name with
      | Pawn => exact calcRel_pawn h _ _
      | Knight => exact calcRel_knight h _ _
      | Bishop => exact calcRel_bishop h _ _
      | Rook => exact calcRel_rook h _ _
      | Queen => exact calcRel_queen h _ _
      | King => exact calcRel_king h _ _

lemma calcRel_stepFold {x y : ChessBoard} (h : CalcRel x y) (ids : List SquareID) :
    CalcRel (ids.foldl ChessBoard.seen_step x) (ids.foldl ChessBoard.seen_step y) := by
  induction ids generalizing x y with
  | nil => exact h
  | cons i rest ih => exact ih (calcRel_step h i)

lemma calcRel_clear {x y : ChessBoard} (h : ShapeRel x y) :
    CalcRel x.board_clear_seen y.board_clear_seen := by
  intro id
  refine ⟨?_, rfl⟩
  have := h id
  simpa [ChessBoard.board_clear_seen, ChessSquare.clear_seen, ChessSquare.shape] using this

/-- The attack-map recompute depends only on board shape: shape-related
boards get identical counters (and keep their shapes). -/
lemma calcRel_calc_seen {x y : ChessBoard} (h : ShapeRel x y) :
    CalcRel x.calc_seen y.calc_seen :=
  calcRel_stepFold (calcRel_clear h) boardIDs

lemma place_updAdd (b : ChessBoard) (t : SquareID) (p : Player) :
    PlaceRel (b.updSq t (fun s => s.add_seen_by p 1)) b := by
  intro id
  rw [updSq_sq]
  split
  · next heq =>
    subst heq
    exact ⟨add_seen_by_id _ _ _, add_seen_by_color _ _ _, add_seen_by_piece _ _ _⟩
  · exact ⟨rfl, rfl, rfl⟩

lemma place_seen_add (b : ChessBoard) (id : SquareID) (o : SquareOffset) (p : Player) :
    PlaceRel (b.seen_add id o p) b := by
  unfold ChessBoard.seen_add
  cases id.add_offset o with
  | none => exact placeRel_refl b
  | some target => exact place_updAdd b target p

lemma place_seenFold (b : ChessBoard) (id : SquareID) (p : Player)
    (offs : List SquareOffset) :
    PlaceRel (offs.foldl (fun acc o => acc.seen_add id o p) b) b := by
  induction offs generalizing b with
  | nil => exact placeRel_refl b
  | cons o rest ih =>
    exact placeRel_trans (ih (b.seen_add id o p)) (place_seen_add b id o p)

lemma place_los_go (b : ChessBoard) (id : SquareID) (p : Player)
    (f : Int → SquareOffset) (fuel : List Int) :
    PlaceRel (b.los_seen_go id p f fuel) b := by
  induction fuel generalizing b with
  | nil => exact placeRel_refl b
  | cons i rest ih =>
    unfold ChessBoard.los_seen_go
    cases id.add_offset (f i) with
    | none => exact placeRel_refl b
    | some target =>
      dsimp only
      split
      · exact place_updAdd b target p
      · exact placeRel_trans (ih _) (place_updAdd b target p)

lemma place_los (b : ChessBoard) (id : SquareID) (p : Player) (f : Int → SquareOffset) :
    PlaceRel (b.los_seen id p f) b :=
  place_los_go b id p f _

lemma place_pawn (b : ChessBoard) (id : SquareID) (p : Player) :
    PlaceRel (b.pawn_seen id p) b :=
  place_seenFold b id p _

lemma place_knight (b : ChessBoard) (id : SquareID) (p : Player) :
    PlaceRel (b.knight_seen id p) b :=
  place_seenFold b id p _

lemma place_king (b : ChessBoard) (id : SquareID) (p : Player) :
    PlaceRel (b.king_seen id p) b :=
  place_seenFold b id p _

lemma place_bishop (b : ChessBoard) (id : SquareID) (p : Player) :
    PlaceRel (b.bishop_seen id p) b :=
  placeRel_trans (place_los _ id p _)
    (placeRel_trans (place_los _ id p _)
      (placeRel_trans (place_los _ id p _) (place_los _ id p _)))

lemma place_rook (b : ChessBoard) (id : SquareID) (p : Player) :
    PlaceRel (b.rook_seen id p) b :=
  placeRel_trans (place_los _ id p _)
    (placeRel_trans (place_los _ id p _)
      (placeRel_trans (place_los _ id p _) (place_los _ id p _)))

lemma place_queen (b : ChessBoard) (id : SquareID) (p : Player) :
    PlaceRel (b.queen_seen id p) b :=
  placeRel_trans (place_rook _ id p) (place_bishop b id p)

lemma place_step (b : ChessBoard) (id : SquareID) :
    PlaceRel (b.seen_step id) b := by
  unfold ChessBoard.seen_step
  cases (b.sq id).piece with
  | none => exact placeRel_refl b
  | some piece =>
    simp only [ChessBoard.piece_step]
    cases piece.name with
    | Pawn => exact place_pawn b _ _
    | Knight => exact place_knight b _ _
    | Bishop => exact place_bishop b _ _
    | Rook => exact place_rook b _ _
    | Queen => exact place_queen b _ _
    | King => exact place_king b _ _

lemma place_stepFold (b : ChessBoard) (ids : List SquareID) :
    PlaceRel (ids.foldl ChessBoard.seen_step b) b := by
  induction ids generalizing b with
  | nil => exact placeRel_refl b
  | cons i rest ih =>
    exact placeRel_trans (ih (b.seen_step i)) (place_step b i)

lemma place_clear (b : ChessBoard) : PlaceRel b.board_clear_seen b := by
  intro id
  exact ⟨rfl, rfl, rfl⟩

/-- A `calc_seen` pass touches only the counters: identities, colours
and pieces (with their `_moved` flags) are unchanged. -/
lemma place_calc_seen (b : ChessBoard) : PlaceRel b.calc_seen b :=
  placeRel_trans (place_stepFold _ boardIDs) (place_clear b)

/-- Recomputing the attack map a second time does not change the board. -/
lemma calc_seen_idem (b : ChessBoard) : b.calc_seen.calc_seen = b.calc_seen := by
  have hshape : ShapeRel b.calc_seen b := placeRel_shapeRel (place_calc_seen b)
  have hcalc := calcRel_calc_seen hshape
  apply ChessBoard.ext
  funext id
  exact ChessSquare.ext (place_calc_seen b.calc_seen id).1
    (place_calc_seen b.calc_seen id).2.1 (place_calc_seen b.calc_seen id).2.2
    ((hcalc id).2)

@[simp]
lemma set_piece_id (s : ChessSquare) (k : ChessPiece) : (s.set_piece k).id = s.id := rfl

@[simp]
lemma set_piece_color (s : ChessSquare) (k : ChessPiece) : (s.set_piece k).color = s.color := rfl

@[simp]
lemma set_piece_piece (s : ChessSquare) (k : ChessPiece) : (s.set_piece k).piece = some k := rfl

@[simp]
lemma clear_piece_id (s : ChessSquare) : s.clear_piece.id = s.id := rfl

@[simp]
lemma clear_piece_color (s : ChessSquare) : s.clear_piece.color = s.color := rfl

@[simp]
lemma clear_piece_piece (s : ChessSquare) : s.clear_piece.piece = none := rfl

@[simp]
lemma set_moved_owner (k : ChessPiece) (m : Bool) : (k.set_moved m).owner = k.owner := rfl

@[simp]
lemma set_moved_name (k : ChessPiece) (m : Bool) : (k.set_moved m).name = k.name := rfl

lemma mem_boardIDs (id : SquareID) : id ∈ boardIDs := by
  revert id
  decide

lemma rustEq_of_shape_seen {s t : ChessSquare} (hsh : s.shape = t.shape)
    (hsn : s.seen_by = t.seen_by) : s.rustEq t = true := by
  have h1 : s.id = t.id := congrArg (fun q => q.1) hsh
  have h2 : s.color = t.color := congrArg (fun q => q.2.1) hsh
  have h3 : s.piece.map (fun p => (p.owner, p.name))
      = t.piece.map (fun p => (p.owner, p.name)) := congrArg (fun q => q.2.2) hsh
  unfold ChessSquare.rustEq
  rw [h1, h2, hsn]
  simp only [decide_eq_true_eq, decide_True, Bool.true_and]
  cases hx : s.piece with
  | none =>
    cases hy : t.piece with
    | none => simp
    | some q => rw [hx, hy] at h3; simp at h3
  | some p =>
    cases hy : t.piece with
    | none => rw [hx, hy] at h3; simp at h3
    | some q =>
      rw [hx, hy] at h3
      simp at h3
      simp [ChessPiece.rustEq, h3.1, h3.2]

lemma boardEq_of (b b' : ChessBoard)
    (h : ∀ id, (b.sq id).shape = (b'.sq id).shape ∧ (b.sq id).seen_by = (b'.sq id).seen_by) :
    ChessBoard.rustEq b b' = true := by
  unfold ChessBoard.rustEq
  rw [List.all_eq_true]
  intro id _
  exact rustEq_of_shape_seen (h id).1 (h id).2

set_option maxRecDepth 1000000 in
lemma calc_seen_new : ChessBoard.new.calc_seen = ChessBoard.new := by
  have h : ∀ id, ChessBoard.new.calc_seen.sq id = ChessBoard.new.sq id := by decide
  apply ChessBoard.ext
  funext id
  exact h id

set_option maxRecDepth 10000 in
lemma ep_geom : ∀ id target : SquareID,
    (if (id.calc_offset target).df = 0 ∧ (id.calc_offset target).dr.natAbs = 2 then
       some ((id.add_offset ⟨0, (id.calc_offset target).dr / 2⟩).getD id)
     else none)
    = (if target.file = id.file
          ∧ ((target.rank.toNat : Int) - (id.rank.toNat : Int)).natAbs = 2 then
         some (ep_skip_square id target)
       else none) := by decide

set_option maxRecDepth 600000 in
/--
C1 counterexample: a game state whose `result` field is set (to draw)
and on which `get_legal_moves` nevertheless returns a non-empty list —
the Rust method never consults `result`.
-/
theorem legal_moves_nonempty_after_result :
    tinyDrawGame.result = some GameResult.Draw
    ∧ tinyDrawGame.get_legal_moves ≠ [] := by
  constructor
  · rfl
  · decide

set_option maxRecDepth 600000 in
set_option maxHeartbeats 2000000 in
/--
C1 (amended): `get_legal_moves` does not read the `result` field — a
state with `result` set returns exactly the same move list as the same
state with `result` unset (so it is empty only when the position itself
has no legal move, not because the game is over).
-/
theorem legal_moves_ignore_result (s : ChessGameState) (r : Option GameResult) :
    ChessGameState.get_legal_moves { s with result := r } = s.get_legal_moves := by
  cases s
  rfl

set_option maxRecDepth 100000 in
/--
C2: evaluating the code at a state with no castling right (both kings
marked moved over the initial placement) shows `get_castling_fen` yields
the empty string, so the third space-separated FEN field is `""` and not
the claimed `-` (the FEN even contains a double space).
-/
theorem castling_fen_empty_eval :
    noCastleState.get_castling_fen = ""
    ∧ spaceFields noCastleState.get_fen
        = ["rnbqkbnr/pppppppp/8/8/8/8/PPPPPPPP/RNBQKBNR", "w", "", "-", "0", "1"]
    ∧ (spaceFields noCastleState.get_fen).getD 2 "?" ≠ "-" := by
  refine ⟨rfl, by decide, by decide⟩

/--
C3: a pseudo-legal move `m` of the side to move appears in
`get_legal_moves` (with some annotation) iff applying `m` to a copy
leaves the mover's king unseen by the opponent (`move_survives`), and a
surviving move appears annotated exactly by `move_annotation` — the map
of (opponent king attacked, opponent has a surviving reply) to
check/checkmate/none/draw.
-/
theorem legality_filter_annotation (s : ChessGameState) (m : ChessMove)
    (hm : m ∈ s.get_all_moves) :
    ((∃ a, (⟨m, a⟩ : AnnotatedMove) ∈ s.get_legal_moves) ↔ s.move_survives m = true)
    ∧ (s.move_survives m = true
        → (⟨m, s.move_annotation m⟩ : AnnotatedMove) ∈ s.get_legal_moves) := by
  simp only [ChessGameState.get_legal_moves]
  constructor
  · constructor
    · rintro ⟨a, ha⟩
      rw [List.mem_filterMap] at ha
      obtain ⟨m', hm', he⟩ := ha
      by_cases hs : s.move_survives m'
      · rw [if_pos hs] at he
        cases he
        exact hs
      · rw [if_neg hs] at he
        cases he
    · intro hs
      exact ⟨s.move_annotation m, List.mem_filterMap.mpr ⟨m, hm, by rw [if_pos hs]⟩⟩
  · intro hs
    exact List.mem_filterMap.mpr ⟨m, hm, by rw [if_pos hs]⟩

set_option maxRecDepth 600000 in
theorem legality_filter_annotation_witness :
    (ChessMove.Move ⟨.A, .One⟩ ⟨.A, .Two⟩ ∈ tinyDrawGame.get_all_moves)
    ∧ (((∃ a, (⟨ChessMove.Move ⟨.A, .One⟩ ⟨.A, .Two⟩, a⟩ : AnnotatedMove)
          ∈ tinyDrawGame.get_legal_moves)
        ↔ tinyDrawGame.move_survives (ChessMove.Move ⟨.A, .One⟩ ⟨.A, .Two⟩) = true)
      ∧ (tinyDrawGame.move_survives (ChessMove.Move ⟨.A, .One⟩ ⟨.A, .Two⟩) = true
          → (⟨ChessMove.Move ⟨.A, .One⟩ ⟨.A, .Two⟩,
              tinyDrawGame.move_annotation (ChessMove.Move ⟨.A, .One⟩ ⟨.A, .Two⟩)⟩
                : AnnotatedMove)
            ∈ tinyDrawGame.get_legal_moves)) :=
  ⟨by decide, legality_filter_annotation _ _ (by decide)⟩

set_option maxRecDepth 100000 in
/--
C4 counterexample: on a state whose `result` is already set
(white-wins), a quiet knight move with annotation `None` pushes the
clock to 61 ≥ 50 yet `result` stays white-wins, not draw — the code only
applies the fifty-move rule when `result` is still unset.
-/
theorem fifty_move_rule_counterexample :
    wonGame.result = some GameResult.WhiteWin
    ∧ 50 ≤ (wonGame.make_move ⟨.Move ⟨.B, .One⟩ ⟨.C, .Three⟩, .None⟩).draw_clock
    ∧ (wonGame.make_move ⟨.Move ⟨.B, .One⟩ ⟨.C, .Three⟩, .None⟩).result
        ≠ some GameResult.Draw := by
  refine ⟨rfl, by decide, by decide⟩

/--
C4 (amended): for a state whose `result` is unset, after `make_move`
with an annotation that sets no result (`None` or `Check`): if the
updated clock is ≥ 50 the result is draw, and if it is < 50 the result
stays unset.
-/
theorem fifty_move_rule (s : ChessGameState) (am : AnnotatedMove)
    (hres : s.result = none)
    (hann : am.annotation = Annotation.None ∨ am.annotation = Annotation.Check) :
    (50 ≤ (s.make_move am).draw_clock
      → (s.make_move am).result = some GameResult.Draw)
    ∧ ((s.make_move am).draw_clock < 50 → (s.make_move am).result = none) := by
  obtain ⟨m, a⟩ := am
  rcases hann with h | h <;> subst h <;>
    simp only [ChessGameState.make_move, hres] <;>
    constructor <;> intro hc <;> simp_all

theorem fifty_move_rule_witness :
    ChessGameState.new.result = none
    ∧ ((50 ≤ (ChessGameState.new.make_move ⟨.Move ⟨.B, .One⟩ ⟨.C, .Three⟩, .None⟩).draw_clock
          → (ChessGameState.new.make_move ⟨.Move ⟨.B, .One⟩ ⟨.C, .Three⟩, .None⟩).result
            = some GameResult.Draw)
      ∧ ((ChessGameState.new.make_move ⟨.Move ⟨.B, .One⟩ ⟨.C, .Three⟩, .None⟩).draw_clock < 50
          → (ChessGameState.new.make_move ⟨.Move ⟨.B, .One⟩ ⟨.C, .Three⟩, .None⟩).result
            = none)) :=
  ⟨rfl, fifty_move_rule _ _ rfl (Or.inl rfl)⟩

/--
C5: `make_move` zeroes the halfmove clock exactly for a quiet `Move` of
a pawn, a `Capture`, an `EnPassant`, a `Promotion` or a
`CapturePromotion`, and otherwise (castling included) increments it.
-/
theorem halfmove_clock_reset_iff (s : ChessGameState) (am : AnnotatedMove) :
    ((s.make_move am).draw_clock
      = if resets_clock s am.chess_move then 0 else s.draw_clock + 1)
    ∧ ((s.make_move am).draw_clock = 0 ↔ resets_clock s am.chess_move = true) := by
  have h1 : (s.make_move am).draw_clock
      = if resets_clock s am.chess_move then 0 else s.draw_clock + 1 := by
    obtain ⟨m, a⟩ := am
    cases m <;> simp only [ChessGameState.make_move, resets_clock] <;>
      first
        | rfl
        | (split
           · split <;> rfl
           · rfl)
  refine ⟨h1, ?_⟩
  rw [h1]
  by_cases hr : resets_clock s am.chess_move <;> simp [hr]

/--
C6: after `make_move` the en-passant target is set exactly for a quiet
`Move` of a pawn whose destination is two ranks away on the same file,
and then equals the skipped square (origin.file, origin.rank +
sign(Δrank)); all other moves leave it unset.
-/
theorem ep_target_after_move (s : ChessGameState) (am : AnnotatedMove) :
    (s.make_move am).ep_square = ep_target_claim s am.chess_move := by
  obtain ⟨m, a⟩ := am
  cases m <;> simp only [ChessGameState.make_move, ep_target_claim]
  case Move id target =>
    by_cases hp : s.pawn_at id
    · simp only [hp, if_true, true_and]
      have h := ep_geom id target
      by_cases hA : (id.calc_offset target).df = 0
          ∧ (id.calc_offset target).dr.natAbs = 2 <;>
        by_cases hB : target.file = id.file
            ∧ ((target.rank.toNat : Int) - (id.rank.toNat : Int)).natAbs = 2 <;>
          simp only [hA, hB, if_true, if_false, if_pos, if_neg, not_false_iff] at h ⊢ <;>
          simp_all
    · simp [hp]

set_option maxRecDepth 1000000 in
set_option maxHeartbeats 16000000 in
/--
C7: the fresh game has exactly 20 legal moves and the canonical initial
FEN; after the quiet move e2→e4 the FEN shows e3 as en-passant target,
black to move, and fullmove number still 1.
-/
theorem initial_and_e4_scenarios :
    ChessGameState.new.get_legal_moves.length = 20
    ∧ ChessGameState.new.get_fen
        = "rnbqkbnr/pppppppp/8/8/8/8/PPPPPPPP/RNBQKBNR w KQkq - 0 1"
    ∧ (ChessGameState.new.make_move ⟨.Move ⟨.E, .Two⟩ ⟨.E, .Four⟩, .None⟩).get_fen
        = "rnbqkbnr/pppppppp/8/8/4P3/8/PPPP1PPP/RNBQKBNR b KQkq e3 0 1"
    ∧ (ChessGameState.new.make_move ⟨.Move ⟨.E, .Two⟩ ⟨.E, .Four⟩, .None⟩).active_player
        = Player.Black
    ∧ (ChessGameState.new.make_move ⟨.Move ⟨.E, .Two⟩ ⟨.E, .Four⟩, .None⟩).turn_num = 1 := by
  refine ⟨by decide, by decide, by decide, by decide, by decide⟩

set_option maxRecDepth 1000000 in
set_option maxHeartbeats 4000000 in
/--
C8 counterexample: on a board whose stored counters disagree with a
from-scratch recompute (initial placement, a1 counters corrupted), a
knight move b1→c3 to an empty square and its inverse do not return an
equal board — the round trip normalises the counters.
-/
theorem knight_roundtrip_counterexample :
    (badSeenBoard.sq ⟨.B, .One⟩).piece = some ⟨.White, .Knight, false⟩
    ∧ (badSeenBoard.sq ⟨.C, .Three⟩).piece = none
    ∧ ChessBoard.rustEq
        ((badSeenBoard.make_move (.Move ⟨.B, .One⟩ ⟨.C, .Three⟩) .White).make_move
          (.Move ⟨.C, .Three⟩ ⟨.B, .One⟩) .White) badSeenBoard = false := by
  refine ⟨rfl, rfl, by decide⟩

/--
C8 (amended): on every board whose counters agree with a from-scratch
recompute (`calc_seen b = b` — true of all engine-produced boards),
moving a knight to an empty square and back yields a board equal to the
original under the `_moved`-agnostic board equality.
-/
theorem knight_roundtrip_on_consistent_board (b : ChessBoard) (p : Player)
    (a c : SquareID) (pc : ChessPiece) (hcons : b.calc_seen = b)
    (hpiece : (b.sq a).piece = some pc) (hknight : pc.name = PieceName.Knight)
    (hempty : (b.sq c).piece = none) :
    ChessBoard.rustEq ((b.make_move (.Move a c) p).make_move (.Move c a) p) b
      = true := by
  have hac : a ≠ c := by
    intro hEq
    rw [hEq, hempty] at hpiece
    exact Option.noConfusion hpiece
  have hca : c ≠ a := fun hEq => hac hEq.symm
  have h1 : b.move_pieces (.Move a c) p
      = (b.updSq a ChessSquare.clear_piece).updSq c
          (fun s => s.set_piece (pc.set_moved true)) := by
    unfold ChessBoard.move_pieces ChessBoard.square_by_id
    dsimp only
    rw [hpiece]
  set b1raw := (b.updSq a ChessSquare.clear_piece).updSq c
      (fun s => s.set_piece (pc.set_moved true)) with hb1raw
  have hplace1 := place_calc_seen b1raw
  have hb1a : b1raw.sq a = (b.sq a).clear_piece := by
    rw [hb1raw, updSq_sq, if_neg hac, updSq_sq, if_pos rfl]
  have hinnerc : (b.updSq a ChessSquare.clear_piece).sq c = b.sq c := by
    rw [updSq_sq, if_neg hca]
  have hb1c : b1raw.sq c = (b.sq c).set_piece (pc.set_moved true) := by
    rw [hb1raw, updSq_sq, if_pos rfl, hinnerc]
  have hb1other : ∀ id, id ≠ a → id ≠ c → b1raw.sq id = b.sq id := by
    intro id hia hic
    rw [hb1raw, updSq_sq, if_neg hic, updSq_sq, if_neg hia]
  have hcpiece : (b1raw.calc_seen.sq c).piece = some (pc.set_moved true) := by
    rw [(hplace1 c).2.2, hb1c]
    simp
  have h2 : b1raw.calc_seen.move_pieces (.Move c a) p
      = (b1raw.calc_seen.updSq c ChessSquare.clear_piece).updSq a
          (fun s => s.set_piece ((pc.set_moved true).set_moved true)) := by
    unfold ChessBoard.move_pieces ChessBoard.square_by_id
    dsimp only
    rw [hcpiece]
  have hgoal : (b.make_move (.Move a c) p).make_move (.Move c a) p
      = ((b1raw.calc_seen.updSq c ChessSquare.clear_piece).updSq a
          (fun s => s.set_piece ((pc.set_moved true).set_moved true))).calc_seen := by
    unfold ChessBoard.make_move
    rw [h1, h2]
  rw [hgoal]
  set b2raw := (b1raw.calc_seen.updSq c ChessSquare.clear_piece).updSq a
      (fun s => s.set_piece ((pc.set_moved true).set_moved true)) with hb2raw
  have hshape : ShapeRel b2raw b := by
    intro id
    by_cases hia : id = a
    · rw [hia, hb2raw, updSq_sq, if_pos rfl, updSq_sq, if_neg hac]
      obtain ⟨hzid, hzcol, _⟩ := hplace1 a
      rw [hb1a] at hzid hzcol
      simp [ChessSquare.shape, hzid, hzcol, hpiece]
    · by_cases hic : id = c
      · rw [hic, hb2raw, updSq_sq, if_neg hca, updSq_sq, if_pos rfl]
        obtain ⟨hzid, hzcol, _⟩ := hplace1 c
        rw [hb1c] at hzid hzcol
        simp [ChessSquare.shape, hzid, hzcol, hempty]
      · obtain ⟨hzid, hzcol, hzpc⟩ := hplace1 id
        rw [hb1other id hia hic] at hzid hzcol hzpc
        rw [hb2raw, updSq_sq, if_neg hia, updSq_sq, if_neg hic]
        simp [ChessSquare.shape, hzid, hzcol, hzpc]
  have hrel := calcRel_calc_seen hshape
  rw [hcons] at hrel
  exact boardEq_of _ _ hrel

set_option maxRecDepth 1000000 in
set_option maxHeartbeats 8000000 in
theorem knight_roundtrip_witness :
    ChessBoard.new.calc_seen = ChessBoard.new
    ∧ (ChessBoard.new.sq ⟨.B, .One⟩).piece = some ⟨.White, .Knight, false⟩
    ∧ (⟨.White, .Knight, false⟩ : ChessPiece).name = PieceName.Knight
    ∧ (ChessBoard.new.sq ⟨.C, .Three⟩).piece = none
    ∧ ChessBoard.rustEq
        ((ChessBoard.new.make_move (.Move ⟨.B, .One⟩ ⟨.C, .Three⟩) .White).make_move
          (.Move ⟨.C, .Three⟩ ⟨.B, .One⟩) .White) ChessBoard.new = true :=
  ⟨calc_seen_new, by decide, rfl, by decide,
    knight_roundtrip_on_consistent_board ChessBoard.new .White ⟨.B, .One⟩ ⟨.C, .Three⟩
      ⟨.White, .Knight, false⟩ calc_seen_new (by decide) rfl (by decide)⟩

/--
C9: every reachable board — the freshly constructed one or any board
produced by `make_move` — is unchanged by a from-scratch attack-map
recompute: the stored seen-by counters (hard-coded ones included) equal
the recomputed ones, and a second recompute is the identity there.
-/
theorem reachable_board_seen_consistent (b : ChessBoard) (h : ReachableBoard b) :
    b.calc_seen = b := by
  cases h with
  | initial => exact calc_seen_new
  | step b m p =>
    show (b.move_pieces m p).calc_seen.calc_seen = (b.move_pieces m p).calc_seen
    exact calc_seen_idem _

theorem reachable_board_seen_consistent_witness :
    ChessBoard.new.calc_seen = ChessBoard.new :=
  reachable_board_seen_consistent _ ReachableBoard.initial

end Chess
